import Mathlib

/-!
Verification of the options-analysis engine.

The embedding has two layers, both translated directly from the source:

- the strategy layer (position P and L, price-grid generation, strategy
  constructors, and the strategy analyzer) works in exact rational
  arithmetic, mirroring the per-share and per-contract formulas of the
  source one for one;
- the pricing layer (the Abramowitz-Stegun normal CDF, the Black-Scholes
  kernel and the Newton-Raphson implied-volatility solver) works over the
  reals, with the same coefficients, formula shapes and output rounding
  as the source.

The source rounds with Math.round (x * 10 ^ k) / 10 ^ k; Math.round
rounds half toward positive infinity, exactly like Mathlib round.
-/

/-- Option kind: call or put. -/
inductive OptionType where
  | call
  | put
deriving DecidableEq

/-- Two-decimal rounding: Math.round (x * 100) / 100. -/
def round2 {α : Type} [LinearOrderedField α] [FloorRing α] (x : α) : α :=
  (round (x * 100) : α) / 100

/-- Three-decimal rounding: Math.round (x * 1000) / 1000. -/
def round3 {α : Type} [LinearOrderedField α] [FloorRing α] (x : α) : α :=
  (round (x * 1000) : α) / 1000

/-- Four-decimal rounding: Math.round (x * 10000) / 10000. -/
def round4 {α : Type} [LinearOrderedField α] [FloorRing α] (x : α) : α :=
  (round (x * 10000) : α) / 10000

/-- A strategy leg: a stock position (premium is the purchase price per
share, quantity a share count) or an option position (per-share premium,
signed contract count, expiry a millisecond timestamp). -/
inductive Position where
  | stock (premium quantity : ℚ)
  | option (optionType : OptionType) (strike premium quantity : ℚ) (expiry : ℚ)
deriving DecidableEq

/-- One point of a payoff curve: an underlying price and the strategy
P and L at that price. -/
structure PricePoint where
  price : ℚ
  pl : ℚ
deriving DecidableEq

/-- calculatePositionPL: P and L of one leg at a given stock price.
Dates are millisecond timestamps; time to expiry is clamped at zero.
The two branches of the source (at expiration and before expiration)
compute the identical intrinsic-value formula. -/
def calculatePositionPL (position : Position) (stockPrice : ℚ) (currentDate : ℚ) : ℚ :=
  match position with
  | .stock premium quantity => (stockPrice - premium) * quantity
  | .option optionType strike premium quantity expiry =>
      let timeToExpiry := max 0 ((expiry - currentDate) / (365 * 24 * 60 * 60 * 1000))
      if timeToExpiry ≤ 0 then
        let intrinsicValue := match optionType with
          | .call => max 0 (stockPrice - strike)
          | .put => max 0 (strike - stockPrice)
        (intrinsicValue - premium) * quantity * 100
      else
        let intrinsicValue := match optionType with
          | .call => max 0 (stockPrice - strike)
          | .put => max 0 (strike - stockPrice)
        (intrinsicValue - premium) * quantity * 100

/-- calculateStrategyPL: total P and L over a price range, one rounded
point per grid price. -/
def calculateStrategyPL (positions : List Position) (priceRange : List ℚ)
    (currentDate : ℚ) : List PricePoint :=
  priceRange.map fun price =>
    { price := price
      pl := round2 (positions.foldl (fun sum position =>
        sum + calculatePositionPL position price currentDate) 0) }

/-- generatePriceRange: steps + 1 equally spaced points from
centerPrice * (1 - percentRange) to centerPrice * (1 + percentRange),
each rounded to two decimals. -/
def generatePriceRange (centerPrice percentRange : ℚ) (steps : ℕ) : List ℚ :=
  let minPrice := centerPrice * (1 - percentRange)
  let maxPrice := centerPrice * (1 + percentRange)
  let stepSize := (maxPrice - minPrice) / steps
  (List.range (steps + 1)).map fun (i : ℕ) => round2 (minPrice + (i : ℚ) * stepSize)

/-- strategies.bullCallSpread: long the lower-strike call, short the
upper-strike call. -/
def bullCallSpread (lowerStrike lowerPremium upperStrike upperPremium expiry : ℚ) :
    List Position :=
  [ .option .call lowerStrike lowerPremium 1 expiry,
    .option .call upperStrike upperPremium (-1) expiry ]

/-- A JavaScript number used as a running extreme: minus infinity, a
finite rational, or plus infinity. The analyzer seeds its maxProfit
accumulator with minus infinity and its maxLoss accumulator with plus
infinity. -/
inductive XQ where
  | negInf
  | fin (q : ℚ)
  | posInf
deriving DecidableEq

/-- Strict less-than on XQ, as JavaScript compares numbers with
infinities. -/
def XQ.lt : XQ → XQ → Bool
  | .negInf, .negInf => false
  | .negInf, .fin _ => true
  | .negInf, .posInf => true
  | .fin _, .negInf => false
  | .fin p, .fin q => decide (p < q)
  | .fin _, .posInf => true
  | .posInf, _ => false

/-- A reported extreme: the string Unlimited, a finite rounded number,
or an infinity that survived Math.round (possible only on an empty
scan). -/
inductive MetricValue where
  | unlimited
  | num (x : ℚ)
  | negInfinity
  | posInfinity
deriving DecidableEq

/-- State of the single scan over the payoff curve: running maxProfit,
running maxLoss, breakeven prices found so far, and the previous P and L
value (none before the first point). -/
structure ScanState where
  maxP : XQ
  maxL : XQ
  breakevens : List ℚ
  prevPL : Option ℚ
deriving DecidableEq

/-- One step of the analyzer scan: update the extremes, and record a
breakeven when the P and L sign changes between adjacent grid points
(strictly negative to nonnegative, or strictly positive to nonpositive);
the recorded price is the later point of the pair. -/
def scanStep (s : ScanState) (pt : PricePoint) : ScanState :=
  { maxP := if XQ.lt s.maxP (.fin pt.pl) then .fin pt.pl else s.maxP
    maxL := if XQ.lt (.fin pt.pl) s.maxL then .fin pt.pl else s.maxL
    breakevens :=
      match s.prevPL with
      | none => s.breakevens
      | some prevPL =>
          if (prevPL < 0 ∧ 0 ≤ pt.pl) ∨ (0 < prevPL ∧ pt.pl ≤ 0) then
            s.breakevens ++ [pt.price]
          else s.breakevens
    prevPL := some pt.pl }

/-- The maxProfit report: Unlimited exactly when the scanned extreme is
plus infinity, otherwise the extreme rounded to two decimals; a scan
that never ran leaves minus infinity, which Math.round preserves. -/
def reportMaxProfit : XQ → MetricValue
  | .posInf => .unlimited
  | .fin q => .num (round2 q)
  | .negInf => .negInfinity

/-- The maxLoss report: Unlimited exactly when the scanned extreme is
minus infinity, otherwise the extreme rounded to two decimals. -/
def reportMaxLoss : XQ → MetricValue
  | .negInf => .unlimited
  | .fin q => .num (round2 q)
  | .posInf => .posInfinity

/-- Result record of analyzeStrategy. -/
structure StrategyMetrics where
  maxProfit : MetricValue
  maxLoss : MetricValue
  breakevenPoints : List ℚ
  netPremium : ℚ
  plData : List PricePoint

/-- analyzeStrategy: evaluate the strategy on a fixed 101-point grid
spanning spot plus and minus thirty percent, with the evaluation date
set to the expiry, scan the curve once for extremes and breakevens, and
add the signed net premium of the option legs. -/
def analyzeStrategy (positions : List Position) (spotPrice : ℚ) (expiry : ℚ) :
    StrategyMetrics :=
  let priceRange := generatePriceRange spotPrice (3/10) 100
  let plData := calculateStrategyPL positions priceRange expiry
  let scan := plData.foldl scanStep ⟨.negInf, .posInf, [], none⟩
  let netPremium := positions.foldl (fun sum position =>
    match position with
    | .option _ _ premium quantity _ => sum + premium * quantity * 100
    | .stock _ _ => sum) 0
  { maxProfit := reportMaxProfit scan.maxP
    maxLoss := reportMaxLoss scan.maxL
    breakevenPoints := scan.breakevens.map round2
    netPremium := round2 netPremium
    plData := plData }

/-- Polynomial factor of the Abramowitz-Stegun approximation: the value
one minus poly(t) times exp of minus z squared, where t is one over one
plus p times z, with the coefficients of the source. -/
noncomputable def asY (z : ℝ) : ℝ :=
  let t := 1 / (1 + 0.3275911 * z)
  1 - (((((1.061405429 * t + -1.453152027) * t) + 1.421413741) * t + -0.284496736) * t
      + 0.254829592) * t * Real.exp (-(z * z))

/-- normalCDF: the source evaluates the approximation on the absolute
value of x divided by the square root of two and recombines with the
sign of x (nonnegative x counts as positive sign). -/
noncomputable def normalCDF (x : ℝ) : ℝ :=
  let sign : ℝ := if x < 0 then -1 else 1
  let z := |x| / Real.sqrt 2
  0.5 * (1 + sign * asY z)

/-- normalPDF: standard normal density. -/
noncomputable def normalPDF (x : ℝ) : ℝ :=
  Real.exp (-0.5 * x * x) / Real.sqrt (2 * Real.pi)

/-- Output record of the pricing kernel. -/
structure Greeks where
  price : ℝ
  delta : ℝ
  gamma : ℝ
  theta : ℝ
  vega : ℝ
  rho : ℝ

/-- calculateGreeks: the Black-Scholes kernel. For nonpositive time to
expiry it returns the intrinsic-value record before d1 and d2 are
formed; otherwise it computes the closed-form values (d1 and d2 from
calculateD1D2 are inlined here) and rounds every output field. -/
noncomputable def calculateGreeks (spotPrice strikePrice timeToExpiry riskFreeRate
    volatility : ℝ) (optionType : OptionType) : Greeks :=
  if timeToExpiry ≤ 0 then
    { price := match optionType with
        | .call => max 0 (spotPrice - strikePrice)
        | .put => max 0 (strikePrice - spotPrice)
      delta := match optionType with
        | .call => if spotPrice > strikePrice then 1 else 0
        | .put => if spotPrice < strikePrice then -1 else 0
      gamma := 0
      theta := 0
      vega := 0
      rho := 0 }
  else
    let d1 := (Real.log (spotPrice / strikePrice)
        + (riskFreeRate + 0.5 * volatility * volatility) * timeToExpiry)
      / (volatility * Real.sqrt timeToExpiry)
    let d2 := d1 - volatility * Real.sqrt timeToExpiry
    let sqrtT := Real.sqrt timeToExpiry
    let expRT := Real.exp (-riskFreeRate * timeToExpiry)
    let price := match optionType with
      | .call => spotPrice * normalCDF d1 - strikePrice * expRT * normalCDF d2
      | .put => strikePrice * expRT * normalCDF (-d2) - spotPrice * normalCDF (-d1)
    let delta := match optionType with
      | .call => normalCDF d1
      | .put => normalCDF d1 - 1
    let rho := match optionType with
      | .call => strikePrice * timeToExpiry * expRT * normalCDF d2 / 100
      | .put => -strikePrice * timeToExpiry * expRT * normalCDF (-d2) / 100
    let gamma := normalPDF d1 / (spotPrice * volatility * sqrtT)
    let thetaAnnual := match optionType with
      | .call => -(spotPrice * normalPDF d1 * volatility) / (2 * sqrtT)
          - riskFreeRate * strikePrice * expRT * normalCDF d2
      | .put => -(spotPrice * normalPDF d1 * volatility) / (2 * sqrtT)
          + riskFreeRate * strikePrice * expRT * normalCDF (-d2)
    { price := round2 price
      delta := round3 delta
      gamma := round4 gamma
      theta := round2 (thetaAnnual / 365)
      vega := round2 (spotPrice * sqrtT * normalPDF d1 / 100)
      rho := round2 rho }

/-- The two clamping statements at the bottom of the solver loop: a
nonpositive sigma becomes 0.01, then anything above 5 becomes 5. -/
noncomputable def clampSigma (sigma : ℝ) : ℝ :=
  let sigma1 := if sigma ≤ 0 then 0.01 else sigma
  if sigma1 > 5 then 5 else sigma1

/-- The Newton-Raphson loop of calculateImpliedVolatility, by remaining
iteration count. Every exit path returns the current sigma rounded to
four decimals: convergence, a zero vega, or exhaustion. -/
noncomputable def ivLoop (optionPrice spotPrice strikePrice timeToExpiry
    riskFreeRate : ℝ) (optionType : OptionType) (tolerance : ℝ) :
    ℕ → ℝ → ℝ
  | 0, sigma => round4 sigma
  | n + 1, sigma =>
      let result := calculateGreeks spotPrice strikePrice timeToExpiry riskFreeRate
        sigma optionType
      let priceDiff := result.price - optionPrice
      if |priceDiff| < tolerance then round4 sigma
      else if result.vega * 100 = 0 then round4 sigma
      else ivLoop optionPrice spotPrice strikePrice timeToExpiry riskFreeRate
        optionType tolerance n (clampSigma (sigma - priceDiff / (result.vega * 100)))

/-- calculateImpliedVolatility: run the loop from the initial guess 0.2. -/
noncomputable def calculateImpliedVolatility (optionPrice spotPrice strikePrice
    timeToExpiry riskFreeRate : ℝ) (optionType : OptionType)
    (maxIterations : ℕ) (tolerance : ℝ) : ℝ :=
  ivLoop optionPrice spotPrice strikePrice timeToExpiry riskFreeRate optionType
    tolerance maxIterations 0.2

/-- Mathlib round is monotone. -/
theorem round_monotone {α : Type} [LinearOrderedField α] [FloorRing α]
    {x y : α} (h : x ≤ y) : round x ≤ round y := by
  rw [round_eq, round_eq]
  exact Int.floor_le_floor (by linarith)

/-- round2 of an integer divided by 100 is exact. -/
theorem round2_div_int {α : Type} [LinearOrderedField α] [FloorRing α]
    (z : ℤ) : round2 ((z : α) / 100) = (z : α) / 100 := by
  unfold round2
  rw [div_mul_cancel₀ _ (by norm_num : (100 : α) ≠ 0), round_intCast]

/-- round2 of a value whose hundredfold is an integer is exact. -/
theorem round2_eq_self {α : Type} [LinearOrderedField α] [FloorRing α]
    {x : α} (z : ℤ) (h : x * 100 = (z : α)) : round2 x = x := by
  have hx : x = (z : α) / 100 := by
    field_simp
    linarith [h]
  rw [hx, round2_div_int]

/-- round2 is monotone. -/
theorem round2_monotone {α : Type} [LinearOrderedField α] [FloorRing α]
    {x y : α} (h : x ≤ y) : round2 x ≤ round2 y := by
  unfold round2
  have h2 : ((round (x * 100) : ℤ) : α) ≤ ((round (y * 100) : ℤ) : α) :=
    Int.cast_le.mpr (round_monotone (by linarith))
  exact div_le_div_of_nonneg_right h2 (by norm_num) |>.trans_eq rfl

/-- Shared evaluation lemma: an option leg always yields the
intrinsic-value formula times quantity times 100, for any date. -/
theorem positionPL_option (ot : OptionType) (strike premium quantity expiry p d : ℚ) :
    calculatePositionPL (.option ot strike premium quantity expiry) p d
      = ((match ot with
          | .call => max 0 (p - strike)
          | .put => max 0 (strike - p)) - premium) * quantity * 100 := by
  simp only [calculatePositionPL, ite_self]

/-- C5: for an option leg the P and L is the intrinsic-value formula with
the 100-share contract multiplier, computed identically whether time to
expiry is zero or positive, hence independent of the evaluation date;
a stock leg is price minus premium times quantity with no multiplier. -/
theorem c5_position_pl_formula :
    ∀ (ot : OptionType) (strike premium quantity expiry stockPrice d d2 : ℚ),
      (calculatePositionPL (.option ot strike premium quantity expiry) stockPrice d
        = ((match ot with
            | .call => max 0 (stockPrice - strike)
            | .put => max 0 (strike - stockPrice)) - premium) * quantity * 100)
      ∧ calculatePositionPL (.option ot strike premium quantity expiry) stockPrice d
          = calculatePositionPL (.option ot strike premium quantity expiry) stockPrice d2
      ∧ ∀ sp sq : ℚ, calculatePositionPL (.stock sp sq) stockPrice d
          = (stockPrice - sp) * sq := by
  intro ot strike premium quantity expiry stockPrice d d2
  refine ⟨positionPL_option ot strike premium quantity expiry stockPrice d, ?_,
    fun sp sq => rfl⟩
  rw [positionPL_option ot strike premium quantity expiry stockPrice d,
    positionPL_option ot strike premium quantity expiry stockPrice d2]

/-- C3 counterexample: a Newton update landing strictly between 0 and
0.01 is left unchanged by the clamp, so the clamped sigma does not lie
in the interval from 0.01 exclusive to 5 inclusive. -/
theorem c3_clamp_not_in_Ioc :
    clampSigma 0.005 = 0.005 ∧ clampSigma 0.005 ∉ Set.Ioc (0.01 : ℝ) 5 := by
  have h : clampSigma 0.005 = 0.005 := by
    simp only [clampSigma]
    norm_num
  refine ⟨h, ?_⟩
  rw [h, Set.mem_Ioc]
  norm_num

/-- C3 amended: the clamp maps every update into the interval from 0
exclusive to 5 inclusive, so every volatility the solver passes to the
kernel after an update is positive and at most 5. -/
theorem c3_clamp_range : ∀ sigma : ℝ, clampSigma sigma ∈ Set.Ioc (0 : ℝ) 5 := by
  intro s
  simp only [clampSigma, Set.mem_Ioc, gt_iff_lt]
  split_ifs with h1 h2 h3
  · exact ⟨by norm_num, le_refl 5⟩
  · exact ⟨by norm_num, by norm_num⟩
  · exact ⟨by norm_num, le_refl 5⟩
  · exact ⟨not_le.mp h1, not_lt.mp h3⟩

/-- C4: with nonpositive time to expiry the kernel returns the
intrinsic-value record (price max 0 of S minus K for calls, max 0 of K
minus S for puts; delta one for an in-the-money call else zero, minus
one for an in-the-money put else zero; gamma, theta, vega, rho all
zero), and the result does not depend on the volatility, so the branch
runs before d1 and d2 and never divides by sigma times the square root
of T. -/
theorem c4_expired_branch :
    ∀ (S K T r sigma sigma2 : ℝ), T ≤ 0 →
      (calculateGreeks S K T r sigma .call
        = ⟨max 0 (S - K), if S > K then 1 else 0, 0, 0, 0, 0⟩)
      ∧ (calculateGreeks S K T r sigma .put
        = ⟨max 0 (K - S), if S < K then -1 else 0, 0, 0, 0, 0⟩)
      ∧ calculateGreeks S K T r sigma .call = calculateGreeks S K T r sigma2 .call
      ∧ calculateGreeks S K T r sigma .put = calculateGreeks S K T r sigma2 .put := by
  intro S K T r sigma sigma2 hT
  simp [calculateGreeks, if_pos hT]

/-- Witness for C4 at concrete inputs: an expired call on spot 5 and
strike 3. -/
theorem c4_expired_branch_witness :
    (0 : ℝ) ≤ 0
    ∧ calculateGreeks 5 3 0 (1/20) (1/5) .call
        = ⟨max 0 (5 - 3), if (5 : ℝ) > 3 then 1 else 0, 0, 0, 0, 0⟩ :=
  ⟨le_refl 0, (c4_expired_branch 5 3 0 (1/20) (1/5) 1 (le_refl 0)).1⟩

/-- C7: the solver returns the current sigma rounded to four decimals on
every exit path, without error: when the remaining iteration budget is
zero, as soon as the absolute price difference is below tolerance, and
when the vega output is exactly zero; and the top-level function is the
loop started at the initial guess 0.2. The loop is a total function into
the reals, so no exit raises an error. -/
theorem c7_solver_stopping :
    ∀ (P S K T r : ℝ) (ot : OptionType) (tol : ℝ) (n : ℕ) (sigma : ℝ),
      ivLoop P S K T r ot tol 0 sigma = round4 sigma
      ∧ (|(calculateGreeks S K T r sigma ot).price - P| < tol →
          ivLoop P S K T r ot tol (n + 1) sigma = round4 sigma)
      ∧ (¬ |(calculateGreeks S K T r sigma ot).price - P| < tol →
          (calculateGreeks S K T r sigma ot).vega * 100 = 0 →
          ivLoop P S K T r ot tol (n + 1) sigma = round4 sigma)
      ∧ calculateImpliedVolatility P S K T r ot n tol
          = ivLoop P S K T r ot tol n 0.2 := by
  intro P S K T r ot tol n sigma
  refine ⟨rfl, fun h => ?_, fun h1 h2 => ?_, rfl⟩
  · simp only [ivLoop]
    rw [if_pos h]
  · simp only [ivLoop]
    rw [if_neg h1, if_pos h2]

/-- Witness for C7 on an expired call (spot 100, strike 90, intrinsic
price 10, vega 0): convergence at market price 10, and the zero-vega
exit at market price 20. -/
theorem c7_solver_stopping_witness :
    ivLoop 10 100 90 0 0 .call (1/10000) 3 (1/5) = round4 (1/5)
    ∧ ivLoop 20 100 90 0 0 .call (1/10000) 3 (1/5) = round4 ((1 : ℝ)/5) := by
  constructor
  · exact (c7_solver_stopping 10 100 90 0 0 .call (1/10000) 2 (1/5)).2.1
      (by norm_num [calculateGreeks])
  · exact (c7_solver_stopping 20 100 90 0 0 .call (1/10000) 2 (1/5)).2.2.1
      (by norm_num [calculateGreeks]) (by norm_num [calculateGreeks])

/-- The polynomial factor at zero: the five coefficients sum to
0.999999999 exactly, leaving a residue of one billionth. -/
theorem asY_zero : asY 0 = 1 / 1000000000 := by
  simp only [asY, mul_zero, neg_zero, zero_mul, Real.exp_zero]
  norm_num

/-- The approximate normal CDF at zero: one half plus half a
billionth. -/
theorem normalCDF_zero : normalCDF 0 = 1000000001 / 2000000000 := by
  simp only [normalCDF, lt_irrefl, if_false, abs_zero, zero_div, asY_zero]
  norm_num

/-- Away from zero the construction through the sign factor makes the
approximation exactly antisymmetric. -/
theorem normalCDF_antisymm (x : ℝ) (hx : x ≠ 0) :
    normalCDF (-x) + normalCDF x = 1 := by
  rcases hx.lt_or_lt with h | h
  · have h1 : ¬ (-x < 0) := by linarith
    simp only [normalCDF, if_pos h, if_neg h1, abs_neg]
    ring
  · have h1 : -x < 0 := by linarith
    have h2 : ¬ (x < 0) := by linarith
    simp only [normalCDF, if_pos h1, if_neg h2, abs_neg]
    ring

/-- Universal bound: the defect of the antisymmetry identity is at most
one billionth for every argument, including zero. -/
theorem normalCDF_pair_bound (x : ℝ) :
    |normalCDF (-x) + normalCDF x - 1| ≤ 1 / 1000000000 := by
  rcases eq_or_ne x 0 with rfl | hx
  · rw [neg_zero, normalCDF_zero]
    rw [abs_le]
    norm_num
  · rw [normalCDF_antisymm x hx]
    norm_num

/-- C10 counterexample: at x equal to zero both calls take the positive
sign branch, and since the five coefficients sum to 0.999999999 rather
than 1, the two values add to one plus a billionth, not one. -/
theorem c10_normalCDF_zero_sum : ¬ (normalCDF (-(0 : ℝ)) + normalCDF 0 = 1) := by
  rw [neg_zero, normalCDF_zero]
  norm_num

/-- C10 amended: for every nonzero x the approximation is exactly
antisymmetric about zero, and consequently the put delta
normalCDF d1 minus one equals minus normalCDF of minus d1 for every
nonzero d1. -/
theorem c10_normalCDF_antisymmetric :
    ∀ x : ℝ, x ≠ 0 →
      normalCDF (-x) + normalCDF x = 1
      ∧ normalCDF x - 1 = -normalCDF (-x) := by
  intro x hx
  have h := normalCDF_antisymm x hx
  exact ⟨h, by linarith⟩

/-- Witness for C10 amended at x equal to one. -/
theorem c10_normalCDF_antisymmetric_witness :
    (1 : ℝ) ≠ 0
    ∧ (normalCDF (-1) + normalCDF 1 = 1
       ∧ normalCDF 1 - 1 = -normalCDF (-1)) :=
  ⟨by norm_num, c10_normalCDF_antisymmetric 1 (by norm_num)⟩

/-- Two-decimal rounding moves a real by at most half a cent. -/
theorem round2_close (x : ℝ) : |round2 x - x| ≤ 1 / 200 := by
  have h : round2 x - x = -((x * 100 - (round (x * 100) : ℝ)) / 100) := by
    unfold round2
    ring
  rw [h, abs_neg, abs_div]
  have h2 := abs_sub_round (x * 100)
  rw [abs_of_pos (by norm_num : (0:ℝ) < 100)]
  linarith

/-- Core of put-call parity for the rounded kernel outputs: if both
CDF pairs sum to one up to a billionth, the rounded call price minus the
rounded put price differs from S minus the discounted strike by at most
a cent plus the approximation defect scaled by the two notionals. -/
theorem parity_core (S KE P1 N1 P2 N2 : ℝ) (hS : 0 < S) (hKE : 0 < KE)
    (h1 : |N1 + P1 - 1| ≤ 1 / 1000000000)
    (h2 : |N2 + P2 - 1| ≤ 1 / 1000000000) :
    |round2 (S * P1 - KE * P2) - round2 (KE * N2 - S * N1) - (S - KE)|
      ≤ 1 / 100 + (S + KE) / 1000000000 := by
  have ha := round2_close (S * P1 - KE * P2)
  have hb := round2_close (KE * N2 - S * N1)
  have hmid : |S * (N1 + P1 - 1) - KE * (N2 + P2 - 1)| ≤ (S + KE) / 1000000000 := by
    have ht : |S * (N1 + P1 - 1) - KE * (N2 + P2 - 1)|
        ≤ |S * (N1 + P1 - 1)| + |KE * (N2 + P2 - 1)| := abs_sub _ _
    rw [abs_mul, abs_mul, abs_of_pos hS, abs_of_pos hKE] at ht
    have hs1 : S * |N1 + P1 - 1| ≤ S * (1 / 1000000000) :=
      mul_le_mul_of_nonneg_left h1 hS.le
    have hs2 : KE * |N2 + P2 - 1| ≤ KE * (1 / 1000000000) :=
      mul_le_mul_of_nonneg_left h2 hKE.le
    have he : S * (1 / 1000000000) + KE * (1 / 1000000000) = (S + KE) / 1000000000 := by
      ring
    linarith
  have hkey : round2 (S * P1 - KE * P2) - round2 (KE * N2 - S * N1) - (S - KE)
      = (round2 (S * P1 - KE * P2) - (S * P1 - KE * P2))
        - (round2 (KE * N2 - S * N1) - (KE * N2 - S * N1))
        + (S * (N1 + P1 - 1) - KE * (N2 + P2 - 1)) := by
    ring
  rw [hkey]
  rw [abs_le] at ha hb hmid ⊢
  constructor <;> linarith

/-- C9: for positive spot, strike, time to expiry and volatility, the
rounded call and put prices from the kernel satisfy put-call parity up
to the tolerance induced by the two-decimal output rounding (half a cent
per price) and the shared Abramowitz-Stegun approximation (one
billionth per unit of the two notionals). -/
theorem c9_put_call_parity :
    ∀ (S K T r sigma : ℝ), 0 < S → 0 < K → 0 < T → 0 < sigma →
      |(calculateGreeks S K T r sigma .call).price
          - (calculateGreeks S K T r sigma .put).price
          - (S - K * Real.exp (-r * T))|
        ≤ 1 / 100 + (S + K * Real.exp (-r * T)) / 1000000000 := by
  intro S K T r sigma hS hK hT hsig
  have hT2 : ¬ (T ≤ 0) := not_le.mpr hT
  simp only [calculateGreeks, if_neg hT2]
  exact parity_core S (K * Real.exp (-r * T)) _ _ _ _ hS
    (by positivity) (normalCDF_pair_bound _) (normalCDF_pair_bound _)

/-- Witness for C9 at spot 100, strike 95, one year, rate 0.05,
volatility 0.3. -/
theorem c9_put_call_parity_witness :
    (0 : ℝ) < 100
    ∧ |(calculateGreeks 100 95 1 (1/20) (3/10) .call).price
        - (calculateGreeks 100 95 1 (1/20) (3/10) .put).price
        - (100 - 95 * Real.exp (-(1/20) * 1))|
      ≤ 1 / 100 + (100 + 95 * Real.exp (-(1/20) * 1)) / 1000000000 :=
  ⟨by norm_num, c9_put_call_parity 100 95 1 (1/20) (3/10) (by norm_num) (by norm_num)
    (by norm_num) (by norm_num)⟩

/-- round2 is idempotent. -/
theorem round2_idem {α : Type} [LinearOrderedField α] [FloorRing α] (x : α) :
    round2 (round2 x) = round2 x := by
  unfold round2
  rw [div_mul_cancel₀ _ (by norm_num : (100 : α) ≠ 0), round_intCast]

/-- The maxProfit component of the scan depends only on the running
maximum. -/
theorem foldl_scanStep_maxP :
    ∀ (l : List PricePoint) (s : ScanState),
      (l.foldl scanStep s).maxP
        = l.foldl (fun a pt => if XQ.lt a (.fin pt.pl) then .fin pt.pl else a) s.maxP := by
  intro l
  induction l with
  | nil => intro s; rfl
  | cons pt l ih =>
      intro s
      simp only [List.foldl_cons]
      rw [ih]
      rfl

/-- The maxLoss component of the scan depends only on the running
minimum. -/
theorem foldl_scanStep_maxL :
    ∀ (l : List PricePoint) (s : ScanState),
      (l.foldl scanStep s).maxL
        = l.foldl (fun a pt => if XQ.lt (.fin pt.pl) a then .fin pt.pl else a) s.maxL := by
  intro l
  induction l with
  | nil => intro s; rfl
  | cons pt l ih =>
      intro s
      simp only [List.foldl_cons]
      rw [ih]
      rfl

/-- Folding the running-maximum update from a finite seed yields a
finite maximum attained at the seed or in the list, bounding both. -/
theorem xq_fold_max :
    ∀ (l : List PricePoint) (m0 : ℚ),
      ∃ m : ℚ,
        l.foldl (fun a pt => if XQ.lt a (.fin pt.pl) then .fin pt.pl else a) (.fin m0)
          = .fin m
        ∧ (m = m0 ∨ ∃ pt ∈ l, pt.pl = m)
        ∧ m0 ≤ m
        ∧ ∀ pt ∈ l, pt.pl ≤ m := by
  intro l
  induction l with
  | nil =>
      intro m0
      exact ⟨m0, rfl, Or.inl rfl, le_refl m0, by simp⟩
  | cons pt l ih =>
      intro m0
      by_cases h : m0 < pt.pl
      · have hlt : XQ.lt (.fin m0) (.fin pt.pl) = true := by
          simp [XQ.lt, h]
        obtain ⟨m, h1, h2, h3, h4⟩ := ih pt.pl
        refine ⟨m, ?_, ?_, h.le.trans h3, ?_⟩
        · simp only [List.foldl_cons, hlt, if_true]
          exact h1
        · rcases h2 with h2 | ⟨pt2, hpt2, hval⟩
          · exact Or.inr ⟨pt, List.mem_cons_self pt l, h2 ▸ rfl⟩
          · exact Or.inr ⟨pt2, List.mem_cons_of_mem pt hpt2, hval⟩
        · intro pt2 hpt2
          rcases List.mem_cons.mp hpt2 with rfl | hpt2
          · exact h3
          · exact h4 pt2 hpt2
      · have hlt : XQ.lt (.fin m0) (.fin pt.pl) = false := by
          simp [XQ.lt, h]
        obtain ⟨m, h1, h2, h3, h4⟩ := ih m0
        refine ⟨m, ?_, ?_, h3, ?_⟩
        · simp only [List.foldl_cons, hlt, if_false]
          exact h1
        · rcases h2 with h2 | ⟨pt2, hpt2, hval⟩
          · exact Or.inl h2
          · exact Or.inr ⟨pt2, List.mem_cons_of_mem pt hpt2, hval⟩
        · intro pt2 hpt2
          rcases List.mem_cons.mp hpt2 with rfl | hpt2
          · exact le_trans (not_lt.mp h) h3
          · exact h4 pt2 hpt2

/-- Folding the running-minimum update from a finite seed yields a
finite minimum attained at the seed or in the list, below both. -/
theorem xq_fold_min :
    ∀ (l : List PricePoint) (m0 : ℚ),
      ∃ m : ℚ,
        l.foldl (fun a pt => if XQ.lt (.fin pt.pl) a then .fin pt.pl else a) (.fin m0)
          = .fin m
        ∧ (m = m0 ∨ ∃ pt ∈ l, pt.pl = m)
        ∧ m ≤ m0
        ∧ ∀ pt ∈ l, m ≤ pt.pl := by
  intro l
  induction l with
  | nil =>
      intro m0
      exact ⟨m0, rfl, Or.inl rfl, le_refl m0, by simp⟩
  | cons pt l ih =>
      intro m0
      by_cases h : pt.pl < m0
      · have hlt : XQ.lt (.fin pt.pl) (.fin m0) = true := by
          simp [XQ.lt, h]
        obtain ⟨m, h1, h2, h3, h4⟩ := ih pt.pl
        refine ⟨m, ?_, ?_, h3.trans h.le, ?_⟩
        · simp only [List.foldl_cons, hlt, if_true]
          exact h1
        · rcases h2 with h2 | ⟨pt2, hpt2, hval⟩
          · exact Or.inr ⟨pt, List.mem_cons_self pt l, h2 ▸ rfl⟩
          · exact Or.inr ⟨pt2, List.mem_cons_of_mem pt hpt2, hval⟩
        · intro pt2 hpt2
          rcases List.mem_cons.mp hpt2 with rfl | hpt2
          · exact h3
          · exact h4 pt2 hpt2
      · have hlt : XQ.lt (.fin pt.pl) (.fin m0) = false := by
          simp [XQ.lt, h]
        obtain ⟨m, h1, h2, h3, h4⟩ := ih m0
        refine ⟨m, ?_, ?_, h3, ?_⟩
        · simp only [List.foldl_cons, hlt, if_false]
          exact h1
        · rcases h2 with h2 | ⟨pt2, hpt2, hval⟩
          · exact Or.inl h2
          · exact Or.inr ⟨pt2, List.mem_cons_of_mem pt hpt2, hval⟩
        · intro pt2 hpt2
          rcases List.mem_cons.mp hpt2 with rfl | hpt2
          · exact h3.trans (not_lt.mp h)
          · exact h4 pt2 hpt2

/-- Scanning a nonempty curve from minus infinity yields a finite
maximum attained in the list and bounding it. -/
theorem xq_fold_max_negInf (pt : PricePoint) (l : List PricePoint) :
    ∃ m : ℚ,
      ((pt :: l).foldl (fun a q => if XQ.lt a (.fin q.pl) then .fin q.pl else a) .negInf)
        = .fin m
      ∧ (∃ pt2 ∈ pt :: l, pt2.pl = m)
      ∧ ∀ pt2 ∈ pt :: l, pt2.pl ≤ m := by
  have hstep : XQ.lt .negInf (.fin pt.pl) = true := rfl
  obtain ⟨m, h1, h2, h3, h4⟩ := xq_fold_max l pt.pl
  refine ⟨m, ?_, ?_, ?_⟩
  · simp only [List.foldl_cons, hstep, if_true]
    exact h1
  · rcases h2 with h2 | ⟨pt2, hpt2, hval⟩
    · exact ⟨pt, List.mem_cons_self pt l, h2 ▸ rfl⟩
    · exact ⟨pt2, List.mem_cons_of_mem pt hpt2, hval⟩
  · intro pt2 hpt2
    rcases List.mem_cons.mp hpt2 with rfl | hpt2
    · exact h3
    · exact h4 pt2 hpt2

/-- Scanning a nonempty curve from plus infinity yields a finite
minimum attained in the list and below it. -/
theorem xq_fold_min_posInf (pt : PricePoint) (l : List PricePoint) :
    ∃ m : ℚ,
      ((pt :: l).foldl (fun a q => if XQ.lt (.fin q.pl) a then .fin q.pl else a) .posInf)
        = .fin m
      ∧ (∃ pt2 ∈ pt :: l, pt2.pl = m)
      ∧ ∀ pt2 ∈ pt :: l, m ≤ pt2.pl := by
  have hstep : XQ.lt (.fin pt.pl) .posInf = true := rfl
  obtain ⟨m, h1, h2, h3, h4⟩ := xq_fold_min l pt.pl
  refine ⟨m, ?_, ?_, ?_⟩
  · simp only [List.foldl_cons, hstep, if_true]
    exact h1
  · rcases h2 with h2 | ⟨pt2, hpt2, hval⟩
    · exact ⟨pt, List.mem_cons_self pt l, h2 ▸ rfl⟩
    · exact ⟨pt2, List.mem_cons_of_mem pt hpt2, hval⟩
  · intro pt2 hpt2
    rcases List.mem_cons.mp hpt2 with rfl | hpt2
    · exact h3
    · exact h4 pt2 hpt2

/-- Every P and L value on a computed curve is already rounded to two
decimals. -/
theorem strategyPL_round2_fixed (ps : List Position) (grid : List ℚ) (e : ℚ) :
    ∀ pt ∈ calculateStrategyPL ps grid e, round2 pt.pl = pt.pl := by
  intro pt hpt
  simp only [calculateStrategyPL, List.mem_map] at hpt
  obtain ⟨price, hprice, rfl⟩ := hpt
  exact round2_idem _

/-- The analyzer always reports finite rounded extremes on its fixed
101-point grid: the reported maxProfit and maxLoss are numbers attained
on the curve and bounding it. -/
theorem analyzeStrategy_extremes (ps : List Position) (spot e : ℚ) :
    ∃ mp ml : ℚ,
      (analyzeStrategy ps spot e).maxProfit = .num mp
      ∧ (analyzeStrategy ps spot e).maxLoss = .num ml
      ∧ (∃ pt ∈ (analyzeStrategy ps spot e).plData, pt.pl = mp)
      ∧ (∀ pt ∈ (analyzeStrategy ps spot e).plData, pt.pl ≤ mp)
      ∧ (∃ pt ∈ (analyzeStrategy ps spot e).plData, pt.pl = ml)
      ∧ (∀ pt ∈ (analyzeStrategy ps spot e).plData, ml ≤ pt.pl) := by
  have hproj : (analyzeStrategy ps spot e).plData
      = calculateStrategyPL ps (generatePriceRange spot (3/10) 100) e := rfl
  have hlen : (calculateStrategyPL ps (generatePriceRange spot (3/10) 100) e).length
      = 101 := rfl
  obtain ⟨pt, rest, hcons⟩ :
      ∃ pt rest, calculateStrategyPL ps (generatePriceRange spot (3/10) 100) e
        = pt :: rest := by
    cases hc : calculateStrategyPL ps (generatePriceRange spot (3/10) 100) e with
    | nil => rw [hc] at hlen; simp at hlen
    | cons a b => exact ⟨a, b, rfl⟩
  have hmaxP : (analyzeStrategy ps spot e).maxProfit
      = reportMaxProfit (((calculateStrategyPL ps (generatePriceRange spot (3/10) 100) e).foldl
          scanStep ⟨.negInf, .posInf, [], none⟩).maxP) := by
    simp only [analyzeStrategy]
  have hmaxL : (analyzeStrategy ps spot e).maxLoss
      = reportMaxLoss (((calculateStrategyPL ps (generatePriceRange spot (3/10) 100) e).foldl
          scanStep ⟨.negInf, .posInf, [], none⟩).maxL) := by
    simp only [analyzeStrategy]
  rw [foldl_scanStep_maxP] at hmaxP
  rw [foldl_scanStep_maxL] at hmaxL
  rw [hcons] at hmaxP hmaxL
  obtain ⟨mp, hp1, hp2, hp3⟩ := xq_fold_max_negInf pt rest
  obtain ⟨ml, hl1, hl2, hl3⟩ := xq_fold_min_posInf pt rest
  have hfix := strategyPL_round2_fixed ps (generatePriceRange spot (3/10) 100) e
  rw [hcons] at hfix
  obtain ⟨ptp, hptp, hvalp⟩ := hp2
  obtain ⟨ptl, hptl, hvall⟩ := hl2
  have hmpfix : round2 mp = mp := hvalp ▸ hfix ptp hptp
  have hmlfix : round2 ml = ml := hvall ▸ hfix ptl hptl
  refine ⟨mp, ml, ?_, ?_, ?_, ?_, ?_, ?_⟩
  · rw [hmaxP, hp1]
    simp only [reportMaxProfit, hmpfix]
  · rw [hmaxL, hl1]
    simp only [reportMaxLoss, hmlfix]
  · rw [hproj, hcons]
    exact ⟨ptp, hptp, hvalp⟩
  · rw [hproj, hcons]
    exact hp3
  · rw [hproj, hcons]
    exact ⟨ptl, hptl, hvall⟩
  · rw [hproj, hcons]
    exact hl3

/-- C8: the analyzer returns maxProfit and maxLoss equal to the largest
and smallest P and L on the scanned grid; an Unlimited report would
require the scanned extreme to still be an infinite sentinel, and since
the fixed grid has 101 points the returned extremes are always finite
numbers. -/
theorem c8_analyzer_extremes :
    ∀ (ps : List Position) (spot e : ℚ),
      (∃ mp ml : ℚ,
        (analyzeStrategy ps spot e).maxProfit = .num mp
        ∧ (analyzeStrategy ps spot e).maxLoss = .num ml
        ∧ (∃ pt ∈ (analyzeStrategy ps spot e).plData, pt.pl = mp)
        ∧ (∀ pt ∈ (analyzeStrategy ps spot e).plData, pt.pl ≤ mp)
        ∧ (∃ pt ∈ (analyzeStrategy ps spot e).plData, pt.pl = ml)
        ∧ (∀ pt ∈ (analyzeStrategy ps spot e).plData, ml ≤ pt.pl))
      ∧ (analyzeStrategy ps spot e).plData.length = 101
      ∧ (∀ acc : XQ, reportMaxProfit acc = .unlimited ↔ acc = .posInf)
      ∧ (∀ acc : XQ, reportMaxLoss acc = .unlimited ↔ acc = .negInf) := by
  intro ps spot e
  refine ⟨analyzeStrategy_extremes ps spot e, ?_, ?_, ?_⟩
  · rfl
  · intro acc
    cases acc <;> simp [reportMaxProfit]
  · intro acc
    cases acc <;> simp [reportMaxLoss]

/-- Witness for C8: on the empty strategy the analyzer reports finite
extremes, not Unlimited. -/
theorem c8_analyzer_extremes_witness :
    (analyzeStrategy [] 100 0).maxProfit ≠ .unlimited
    ∧ (analyzeStrategy [] 100 0).maxLoss ≠ .unlimited := by
  obtain ⟨⟨mp, ml, h1, h2, _⟩, _⟩ := c8_analyzer_extremes [] 100 0
  rw [h1, h2]
  exact ⟨by simp, by simp⟩

/-- The concrete default grid of the raw curve API: center 100, range
fraction 0.2, 50 steps gives the exact points 80, 80.8, ..., 120, since
every pre-rounding point is already an exact multiple of a cent. -/
theorem priceRange_100_20_50 :
    generatePriceRange 100 (2/10) 50
      = (List.range 51).map fun (i : ℕ) => 80 + (i : ℚ) * (4/5) := by
  simp only [generatePriceRange]
  refine List.map_congr_left ?_
  intro i hi
  have hv : (100 * (1 - 2/10) + (i : ℚ) * ((100 * (1 + 2/10) - 100 * (1 - 2/10)) / ((50 : ℕ) : ℚ)))
      = 80 + (i : ℚ) * (4/5) := by
    push_cast
    ring
  rw [hv]
  exact round2_eq_self (8000 + 80 * (i : ℤ)) (by push_cast; ring)

/-- C6: generatePriceRange returns steps plus one points, each the
two-decimal rounding of the corresponding point of the arithmetic
progression from C times one minus f to C times one plus f; for center
100, fraction 0.2 and 50 steps this gives 51 points, first exactly 80,
last exactly 120, consecutive points exactly 0.8 apart, every point a
fixed point of the rounding. -/
theorem c6_price_range :
    ∀ (C f : ℚ) (n : ℕ), 0 < n →
      ((generatePriceRange C f n).length = n + 1
        ∧ generatePriceRange C f n
            = (List.range (n + 1)).map fun (i : ℕ) =>
                round2 (C * (1 - f) + (i : ℚ) * ((C * (1 + f) - C * (1 - f)) / (n : ℚ))))
      ∧ ((generatePriceRange 100 (2/10) 50).length = 51
        ∧ (generatePriceRange 100 (2/10) 50).head? = some 80
        ∧ (generatePriceRange 100 (2/10) 50).getLast? = some 120
        ∧ List.Chain' (fun a b => b - a = 4/5) (generatePriceRange 100 (2/10) 50)
        ∧ ∀ x ∈ generatePriceRange 100 (2/10) 50, round2 x = x) := by
  intro C f n hn
  constructor
  · constructor
    · simp only [generatePriceRange, List.length_map, List.length_range]
    · rfl
  · refine ⟨rfl, ?_, ?_, ?_, ?_⟩
    · rw [priceRange_100_20_50, List.range_succ_eq_map, List.map_cons, List.head?_cons]
      norm_num
    · rw [priceRange_100_20_50, List.range_succ 50, List.map_append, List.map_singleton,
        List.getLast?_concat]
      norm_num
    · rw [priceRange_100_20_50, List.chain'_map, List.chain'_range_succ]
      intro m hm
      push_cast
      ring
    · intro x hx
      rw [priceRange_100_20_50] at hx
      obtain ⟨i, hi, rfl⟩ := List.mem_map.mp hx
      exact round2_eq_self (8000 + 80 * (i : ℤ)) (by push_cast; ring)

/-- Witness for C6 at the concrete default grid. -/
theorem c6_price_range_witness :
    (0 < 50)
    ∧ (generatePriceRange 100 (2/10) 50).head? = some 80
    ∧ (generatePriceRange 100 (2/10) 50).getLast? = some 120 :=
  ⟨by norm_num,
    (c6_price_range 100 (2/10) 50 (by norm_num)).2.2.1,
    (c6_price_range 100 (2/10) 50 (by norm_num)).2.2.2.1⟩

/-- round2 fixes zero. -/
theorem round2_zero {α : Type} [LinearOrderedField α] [FloorRing α] :
    round2 (0 : α) = 0 := by
  unfold round2
  norm_num

/-- The kernel simply returns the intrinsic record for a negative spot
when the option is expired; no error is raised. -/
theorem greeks_negative_spot_expired (r sigma : ℝ) :
    calculateGreeks (-1) 100 0 r sigma .call = ⟨0, 0, 0, 0, 0, 0⟩ := by
  norm_num [calculateGreeks]

/-- The analyzer of the empty strategy computes a curve of zeros. -/
theorem empty_strategy_pl_zero :
    ∀ pt ∈ (analyzeStrategy [] (100 : ℚ) 0).plData, pt.pl = 0 := by
  intro pt hpt
  have hproj : (analyzeStrategy [] (100 : ℚ) 0).plData
      = calculateStrategyPL [] (generatePriceRange 100 (3/10) 100) 0 := rfl
  rw [hproj] at hpt
  simp only [calculateStrategyPL, List.mem_map] at hpt
  obtain ⟨p, hp, rfl⟩ := hpt
  simp only [List.foldl_nil]
  exact round2_zero

/-- C1 counterexample: each input the claim calls a domain violation is
accepted and produces an ordinary numeric result, never an error: the
kernel on a negative spot returns the intrinsic record, the strategy
evaluator on an empty grid returns the empty curve, and the analyzer on
a zero-leg strategy returns finite numeric metrics. -/
theorem c1_invalid_inputs_return_values :
    calculateGreeks (-1) 100 0 (1/20) (1/5) .call = ⟨0, 0, 0, 0, 0, 0⟩
    ∧ calculateStrategyPL [.stock 1 1] [] 0 = []
    ∧ (analyzeStrategy [] 100 0).maxProfit ≠ .unlimited
    ∧ (analyzeStrategy [] 100 0).maxLoss ≠ .unlimited := by
  refine ⟨greeks_negative_spot_expired (1/20) (1/5), rfl, ?_, ?_⟩
  · obtain ⟨mp, ml, h1, h2, _⟩ := analyzeStrategy_extremes [] 100 0
    rw [h1]
    simp
  · obtain ⟨mp, ml, h1, h2, _⟩ := analyzeStrategy_extremes [] 100 0
    rw [h2]
    simp

/-- C1 amended: the code performs no domain validation at all; the
kernel, the strategy evaluator and the analyzer are total functions that
return ordinary numeric results on non-positive spot, on an empty price
grid and on a strategy with zero legs. -/
theorem c1_no_validation_total :
    (∀ r sigma : ℝ, calculateGreeks (-1) 100 0 r sigma .call = ⟨0, 0, 0, 0, 0, 0⟩)
    ∧ (∀ (ps : List Position) (d : ℚ), calculateStrategyPL ps [] d = [])
    ∧ (analyzeStrategy [] 100 0).netPremium = 0
    ∧ (analyzeStrategy [] 100 0).maxProfit = .num 0
    ∧ (analyzeStrategy [] 100 0).maxLoss = .num 0
    ∧ (analyzeStrategy [] 100 0).plData.length = 101 := by
  refine ⟨greeks_negative_spot_expired, fun ps d => rfl, ?_, ?_, ?_, rfl⟩
  · show round2 (0 : ℚ) = 0
    exact round2_zero
  · obtain ⟨mp, ml, h1, h2, ⟨ptp, hptp, hvalp⟩, _, _, _⟩ :=
      analyzeStrategy_extremes [] 100 0
    have hmp : mp = 0 := by
      rw [← hvalp]
      exact empty_strategy_pl_zero ptp hptp
    rw [h1, hmp]
  · obtain ⟨mp, ml, h1, h2, _, _, ⟨ptl, hptl, hvall⟩, _⟩ :=
      analyzeStrategy_extremes [] 100 0
    have hml : ml = 0 := by
      rw [← hvall]
      exact empty_strategy_pl_zero ptl hptl
    rw [h2, hml]

/-- The analyzer grid around spot 100: the exact points 70, 70.6, ...,
130; every pre-rounding point is an exact multiple of a cent. -/
theorem priceRange_100_30_100 :
    generatePriceRange 100 (3/10) 100
      = (List.range 101).map fun (i : ℕ) => 70 + (i : ℚ) * (3/5) := by
  simp only [generatePriceRange]
  refine List.map_congr_left ?_
  intro i hi
  have hv : (100 * (1 - 3/10)
        + (i : ℚ) * ((100 * (1 + 3/10) - 100 * (1 - 3/10)) / ((100 : ℕ) : ℚ)))
      = 70 + (i : ℚ) * (3/5) := by
    push_cast
    ring
  rw [hv]
  exact round2_eq_self (7000 + 60 * (i : ℤ)) (by push_cast; ring)

/-- Total P and L of the example bull call spread at any price and
date. -/
theorem bcs_pl_sum (p d : ℚ) :
    (bullCallSpread 100 5 110 2 0).foldl
        (fun sum position => sum + calculatePositionPL position p d) 0
      = 100 * max 0 (p - 100) - 100 * max 0 (p - 110) - 300 := by
  have h1 : calculatePositionPL (.option .call 100 5 1 0) p d
      = (max 0 (p - 100) - 5) * 1 * 100 := positionPL_option .call 100 5 1 0 p d
  have h2 : calculatePositionPL (.option .call 110 2 (-1) 0) p d
      = (max 0 (p - 110) - 2) * (-1) * 100 := positionPL_option .call 110 2 (-1) 0 p d
  simp only [bullCallSpread, List.foldl_cons, List.foldl_nil, h1, h2]
  ring

/-- The spread payoff slope term lies between 0 and the strike width. -/
theorem bcs_payoff_bounds (p : ℚ) :
    0 ≤ max 0 (p - 100) - max 0 (p - 110)
    ∧ max 0 (p - 100) - max 0 (p - 110) ≤ 10 := by
  rcases le_total p 110 with h | h
  · have h2 : max 0 (p - 110) = 0 := max_eq_left (by linarith)
    have h3 : max 0 (p - 100) ≤ 10 := max_le (by norm_num) (by linarith)
    have h4 : (0 : ℚ) ≤ max 0 (p - 100) := le_max_left 0 (p - 100)
    exact ⟨by linarith, by linarith⟩
  · have h2 : max 0 (p - 110) = p - 110 := max_eq_right (by linarith)
    have h3 : max 0 (p - 100) = p - 100 := max_eq_right (by linarith)
    rw [h2, h3]
    exact ⟨by linarith, by linarith⟩

/-- Every curve point of the analyzed spread carries the rounded payoff
of its price. -/
theorem bcs_pl_values :
    ∀ pt ∈ (analyzeStrategy (bullCallSpread 100 5 110 2 0) 100 0).plData,
      pt.pl = round2 (100 * max 0 (pt.price - 100) - 100 * max 0 (pt.price - 110) - 300) := by
  intro pt hpt
  have hproj : (analyzeStrategy (bullCallSpread 100 5 110 2 0) 100 0).plData
      = calculateStrategyPL (bullCallSpread 100 5 110 2 0)
          (generatePriceRange 100 (3/10) 100) 0 := rfl
  rw [hproj] at hpt
  simp only [calculateStrategyPL, List.mem_map] at hpt
  obtain ⟨p, hp, rfl⟩ := hpt
  exact congrArg round2 (bcs_pl_sum p 0)

/-- The curve of the analyzed spread stays between minus 300 and 700. -/
theorem bcs_pl_bounds :
    ∀ pt ∈ (analyzeStrategy (bullCallSpread 100 5 110 2 0) 100 0).plData,
      -300 ≤ pt.pl ∧ pt.pl ≤ 700 := by
  intro pt hpt
  rw [bcs_pl_values pt hpt]
  obtain ⟨hg0, hg10⟩ := bcs_payoff_bounds pt.price
  have hlo : round2 (-300 : ℚ) = -300 :=
    @round2_eq_self ℚ _ _ (-300) (-30000) (by norm_num)
  have hhi : round2 (700 : ℚ) = 700 :=
    @round2_eq_self ℚ _ _ 700 70000 (by norm_num)
  constructor
  · have h := round2_monotone (show (-300 : ℚ)
        ≤ 100 * max 0 (pt.price - 100) - 100 * max 0 (pt.price - 110) - 300 by linarith)
    linarith [h, hlo]
  · have h := round2_monotone (show (100 * max 0 (pt.price - 100)
        - 100 * max 0 (pt.price - 110) - 300 : ℚ) ≤ 700 by linarith)
    linarith [h, hhi]

/-- The maximal loss point: price 100 with P and L minus 300 is on the
curve. -/
theorem bcs_mem_loss :
    (⟨100, -300⟩ : PricePoint)
      ∈ (analyzeStrategy (bullCallSpread 100 5 110 2 0) 100 0).plData := by
  have hproj : (analyzeStrategy (bullCallSpread 100 5 110 2 0) 100 0).plData
      = calculateStrategyPL (bullCallSpread 100 5 110 2 0)
          (generatePriceRange 100 (3/10) 100) 0 := rfl
  rw [hproj]
  simp only [calculateStrategyPL, List.mem_map]
  refine ⟨100, ?_, ?_⟩
  · rw [priceRange_100_30_100]
    exact List.mem_map.mpr ⟨50, by simp, by norm_num⟩
  · have hv : round2 ((bullCallSpread 100 5 110 2 0).foldl
        (fun sum position => sum + calculatePositionPL position 100 0) 0) = -300 := by
      rw [bcs_pl_sum]
      rw [show max 0 ((100 : ℚ) - 100) = 0 by norm_num,
        show max 0 ((100 : ℚ) - 110) = 0 from max_eq_left (by norm_num)]
      rw [show (100 * 0 - 100 * 0 - 300 : ℚ) = -300 by ring]
      exact round2_eq_self (-30000 : ℤ) (by norm_num)
    simp only [PricePoint.mk.injEq]
    exact ⟨trivial, hv⟩

/-- The maximal profit point: price 110.2 with P and L 700 is on the
curve. -/
theorem bcs_mem_profit :
    (⟨551/5, 700⟩ : PricePoint)
      ∈ (analyzeStrategy (bullCallSpread 100 5 110 2 0) 100 0).plData := by
  have hproj : (analyzeStrategy (bullCallSpread 100 5 110 2 0) 100 0).plData
      = calculateStrategyPL (bullCallSpread 100 5 110 2 0)
          (generatePriceRange 100 (3/10) 100) 0 := rfl
  rw [hproj]
  simp only [calculateStrategyPL, List.mem_map]
  refine ⟨551/5, ?_, ?_⟩
  · rw [priceRange_100_30_100]
    exact List.mem_map.mpr ⟨67, by simp, by norm_num⟩
  · have hv : round2 ((bullCallSpread 100 5 110 2 0).foldl
        (fun sum position => sum + calculatePositionPL position (551/5) 0) 0) = 700 := by
      rw [bcs_pl_sum]
      have e1 : max 0 ((551/5 : ℚ) - 100) = 51/5 := by
        rw [max_eq_right (by norm_num : (0 : ℚ) ≤ 551/5 - 100)]
        norm_num
      have e2 : max 0 ((551/5 : ℚ) - 110) = 1/5 := by
        rw [max_eq_right (by norm_num : (0 : ℚ) ≤ 551/5 - 110)]
        norm_num
      rw [e1, e2]
      rw [show (100 * (51/5) - 100 * (1/5) - 300 : ℚ) = 700 by ring]
      exact round2_eq_self (70000 : ℤ) (by norm_num)
    simp only [PricePoint.mk.injEq]
    exact ⟨trivial, hv⟩

/-- The example spread costs a net debit of 300, reported as positive
300. -/
theorem bcs_net_premium :
    (analyzeStrategy (bullCallSpread 100 5 110 2 0) 100 0).netPremium = 300 := by
  have h : (analyzeStrategy (bullCallSpread 100 5 110 2 0) 100 0).netPremium
      = round2 (0 + 5 * 1 * 100 + 2 * (-1) * 100 : ℚ) := rfl
  rw [h, show (0 + 5 * 1 * 100 + 2 * (-1) * 100 : ℚ) = 300 by norm_num]
  exact round2_eq_self (30000 : ℤ) (by norm_num)

/-- C2 counterexample: the code computes the net premium of the example
bull call spread as positive 300 (the sum over legs of premium times
quantity times 100), not minus 300. -/
theorem c2_netPremium_not_neg300 :
    (analyzeStrategy (bullCallSpread 100 5 110 2 0) 100 0).netPremium ≠ -300 := by
  rw [bcs_net_premium]
  norm_num

/-- C2 amended: for the example bull call spread the analyzer returns
netPremium 300 (positive, a debit of 300), maxLoss minus 300 attained at
and below price 100, and maxProfit 700 attained at and above price
110. -/
theorem c2_bull_call_spread_metrics :
    (analyzeStrategy (bullCallSpread 100 5 110 2 0) 100 0).netPremium = 300
    ∧ (analyzeStrategy (bullCallSpread 100 5 110 2 0) 100 0).maxProfit = .num 700
    ∧ (analyzeStrategy (bullCallSpread 100 5 110 2 0) 100 0).maxLoss = .num (-300)
    ∧ (∀ pt ∈ (analyzeStrategy (bullCallSpread 100 5 110 2 0) 100 0).plData,
        pt.price ≤ 100 → pt.pl = -300)
    ∧ (∀ pt ∈ (analyzeStrategy (bullCallSpread 100 5 110 2 0) 100 0).plData,
        110 ≤ pt.price → pt.pl = 700) := by
  refine ⟨bcs_net_premium, ?_, ?_, ?_, ?_⟩
  · obtain ⟨mp, ml, h1, h2, ⟨ptp, hptp, hvalp⟩, hbp, _, _⟩ :=
      analyzeStrategy_extremes (bullCallSpread 100 5 110 2 0) 100 0
    have hle : mp ≤ 700 := by
      rw [← hvalp]
      exact (bcs_pl_bounds ptp hptp).2
    have hge : (700 : ℚ) ≤ mp := hbp ⟨551/5, 700⟩ bcs_mem_profit
    rw [h1, le_antisymm hle hge]
  · obtain ⟨mp, ml, h1, h2, _, _, ⟨ptl, hptl, hvall⟩, hbl⟩ :=
      analyzeStrategy_extremes (bullCallSpread 100 5 110 2 0) 100 0
    have hge : -300 ≤ ml := by
      rw [← hvall]
      exact (bcs_pl_bounds ptl hptl).1
    have hle : ml ≤ (-300 : ℚ) := hbl ⟨100, -300⟩ bcs_mem_loss
    rw [h2, le_antisymm hle hge]
  · intro pt hpt hple
    rw [bcs_pl_values pt hpt]
    rw [max_eq_left (show pt.price - 100 ≤ 0 by linarith),
      max_eq_left (show pt.price - 110 ≤ 0 by linarith)]
    rw [show (100 * 0 - 100 * 0 - 300 : ℚ) = -300 by ring]
    exact round2_eq_self (-30000 : ℤ) (by norm_num)
  · intro pt hpt hpge
    rw [bcs_pl_values pt hpt]
    rw [max_eq_right (show (0 : ℚ) ≤ pt.price - 100 by linarith),
      max_eq_right (show (0 : ℚ) ≤ pt.price - 110 by linarith)]
    rw [show (100 * (pt.price - 100) - 100 * (pt.price - 110) - 300 : ℚ) = 700 by ring]
    exact round2_eq_self (70000 : ℤ) (by norm_num)

/-- Witness for C2 amended: the closed conjuncts of the result record. -/
theorem c2_bull_call_spread_metrics_witness :
    (analyzeStrategy (bullCallSpread 100 5 110 2 0) 100 0).netPremium = 300
    ∧ (analyzeStrategy (bullCallSpread 100 5 110 2 0) 100 0).maxProfit = .num 700
    ∧ (analyzeStrategy (bullCallSpread 100 5 110 2 0) 100 0).maxLoss = .num (-300) :=
  ⟨c2_bull_call_spread_metrics.1, c2_bull_call_spread_metrics.2.1,
    c2_bull_call_spread_metrics.2.2.1⟩
